import Mathlib

/-!
Shallow embedding of the gyan Yan85 emulator core
(src/src/emulator.rs, src/src/emu.rs, src/src/register.rs).

Machine integers (Rust `u8`) are modelled as `Nat` with an explicit
`% 256` exactly where the source wraps (`wrapping_add`, and the `+= 1` /
`-= 1` done on one-byte registers, whose release-mode semantics — and the
behaviour the repository's spec describes — is modulo-256 wraparound).
Rust panics (out-of-range `Vec`/array indexing, `todo!`, unsupported
syscalls, reads/writes of the `Register::None` sentinel, whose
`to_index()` is 8 and therefore out of range for the 7-cell register
file) are modelled as `none` / `StepResult.panicked`.  `process::exit`
(which never returns) is modelled as the terminal `StepResult.exited`.
Host file I/O whose result depends on host state that is not modelled
(OPEN, READ_MEMORY) is the explicit `StepResult.hostDependent`; the
bytes WRITE sends to the host are recorded in the machine's `out` trace.
-/

namespace Gyan

/-- The Yan85 registers (src/src/register.rs): seven one-byte registers
plus the `None` sentinel used for optional `STK` operands. -/
inductive Register where
  | A
  | B
  | C
  | D
  | S
  | I
  | F
  | None
deriving DecidableEq

/-- The register file: seven one-byte cells (`Registers` in the source,
a `[u8; 7]` indexed by the bit-position of each register's bound
constant; the binding is a bijection onto the seven slots, so the file
is modelled with one named field per register). -/
structure Registers where
  a : Nat
  b : Nat
  c : Nat
  d : Nat
  s : Nat
  i : Nat
  f : Nat
deriving DecidableEq

/-- Reading a register.  `Register::None` has `to_index() = 8`, out of
range for the 7-cell array: reading it is a Rust panic, modelled as
`none`. -/
def readReg (R : Registers) : Register → Option Nat
  | .A => some R.a
  | .B => some R.b
  | .C => some R.c
  | .D => some R.d
  | .S => some R.s
  | .I => some R.i
  | .F => some R.f
  | .None => none

/-- Writing a register; writing `Register::None` is a Rust panic,
modelled as `none`. -/
def writeReg (R : Registers) : Register → Nat → Option Registers
  | .A, v => some { R with a := v }
  | .B, v => some { R with b := v }
  | .C, v => some { R with c := v }
  | .D, v => some { R with d := v }
  | .S, v => some { R with s := v }
  | .I, v => some { R with i := v }
  | .F, v => some { R with f := v }
  | .None, _ => none

/-- Modelled from the spec: `constants.rs` is absent from the sources;
the spec describes the flag part of `Constants` as a flag-name → byte
map of named bits L (less), G (greater), E (equal), N (set alongside
L/G), Z (both-zero). -/
structure FlagConstants where
  L : Nat
  G : Nat
  E : Nat
  N : Nat
  Z : Nat
deriving DecidableEq

/-- Modelled from the spec: `constants.rs` is absent from the sources;
the syscall part of `Constants` maps syscall names to numeric codes. -/
structure SyscallConstants where
  OPEN : Nat
  READ_CODE : Nat
  READ_MEMORY : Nat
  WRITE : Nat
  SLEEP : Nat
  EXIT : Nat
deriving DecidableEq

/-- The encoding constants handed to the emulator at construction. -/
structure Constants where
  flag : FlagConstants
  syscall : SyscallConstants
deriving DecidableEq

/-- A decoded Yan85 instruction (the `Instruction` enum; `instruction.rs`
is absent, so operand roles follow their use in `emulator.rs`: the first
`STK` operand is the pop destination and the second the push source, as
the `emulate_stk(pop, push)` signature and the unit tests fix). -/
inductive Instruction where
  | IMM (register : Register) (value : Nat)
  | ADD (a b : Register)
  | STK (pop push : Register)
  | STM (a b : Register)
  | LDM (a b : Register)
  | CMP (a b : Register)
  | JMP (condition : Nat) (register : Register)
  | SYS (syscall : Nat) (register : Register)
deriving DecidableEq

/-- Pointwise update of a byte array modelled as a function. -/
def setMem (f : Nat → Nat) (k v : Nat) : Nat → Nat :=
  fun n => if n = k then v else f n

/-- The mutable emulator state: register file, the 256-cell stack, the
256-cell memory (`stack.rs`/`memory.rs` hold plain `[u8; 256]` arrays
per the spec), and the trace of bytes written to host files (the
embedding of the WRITE syscall's host side effect). -/
structure Machine where
  registers : Registers
  stack : Nat → Nat
  memory : Nat → Nat
  out : List Nat

/-- Result of one emulator step. -/
inductive StepResult where
  | ok (m : Machine)
  | exited (code : Nat)
  | panicked
  | hostDependent

/-- `emulate_imm`: assign `value` to `register`. -/
def emulate_imm (register : Register) (value : Nat) (m : Machine) : Option Machine := do
  let R ← writeReg m.registers register value
  pure { m with registers := R }

/-- `emulate_add`: `a := a.wrapping_add(b)`. -/
def emulate_add (a b : Register) (m : Machine) : Option Machine := do
  let va ← readReg m.registers a
  let vb ← readReg m.registers b
  let R ← writeReg m.registers a ((va + vb) % 256)
  pure { m with registers := R }

/-- `emulate_stk`: if `push != None`, store `push`'s value at `stack[S]`
and then `S += 1`; if `pop != None`, `S -= 1` and then load `stack[S]`
into `pop`.  The one-byte stack pointer wraps modulo 256 (the source
leaves under/overflow unguarded, per its own TODO). -/
def emulate_stk (pop push : Register) (m : Machine) : Option Machine := do
  let m1 ←
    if push ≠ Register.None then do
      let v ← readReg m.registers push
      pure { m with
        stack := setMem m.stack m.registers.s v,
        registers := { m.registers with s := (m.registers.s + 1) % 256 } }
    else pure m
  if pop ≠ Register.None then do
    let s2 := (m1.registers.s + 255) % 256
    let R ← writeReg { m1.registers with s := s2 } pop (m1.stack s2)
    pure { m1 with registers := R }
  else pure m1

/-- `emulate_stm`: `memory[*a] := *b`. -/
def emulate_stm (a b : Register) (m : Machine) : Option Machine := do
  let va ← readReg m.registers a
  let vb ← readReg m.registers b
  pure { m with memory := setMem m.memory va vb }

/-- `emulate_ldm`: `a := memory[*b]`. -/
def emulate_ldm (a b : Register) (m : Machine) : Option Machine := do
  let vb ← readReg m.registers b
  let R ← writeReg m.registers a (m.memory vb)
  pure { m with registers := R }

/-- `emulate_cmp`: recompute the flag byte from scratch from the
ordering of the two operand values, then store it in F. -/
def emulate_cmp (fc : FlagConstants) (a b : Register) (m : Machine) : Option Machine := do
  let va ← readReg m.registers a
  let vb ← readReg m.registers b
  let flags :=
    if va < vb then fc.L ||| fc.N
    else if vb < va then fc.G ||| fc.N
    else fc.E
  let flags := if va = 0 ∧ vb = 0 then flags ||| fc.Z else flags
  let R ← writeReg m.registers Register.F flags
  pure { m with registers := R }

/-- `emulate_jmp`: if `F & condition != 0`, set I to `register`'s value
(the register is only read when the jump is taken, as in the source). -/
def emulate_jmp (condition : Nat) (register : Register) (m : Machine) : Option Machine :=
  if m.registers.f &&& condition ≠ 0 then do
    let v ← readReg m.registers register
    let R ← writeReg m.registers Register.I v
    pure { m with registers := R }
  else pure m

/-- `syscall_write`: send `memory[start..start + size]` to the host file
`fd` and return the byte count.  `start + size` is a `u8` addition, so a
sum past 255 cannot be represented (overflow), modelled as `none`; the
bytes actually sent are appended to the machine's `out` trace. -/
def syscall_write (fd start size : Nat) (m : Machine) : Option (Machine × Nat) :=
  if start + size ≤ 255 then
    let bytes := (List.range size).map fun k => m.memory (start + k)
    some ({ m with out := m.out ++ bytes }, bytes.length)
  else none

/-- `emulate_sys`: dispatch on the syscall code in the order of the
source's match arms, with arguments taken from registers A, B, C, and
(when the syscall returns) the return value stored in `register`.
OPEN and READ_MEMORY depend on unmodelled host state; READ_CODE and
SLEEP are `todo!()` in the source (a panic); an unrecognized code is a
panic; EXIT calls `process::exit` and never returns. -/
def emulate_sys (c : Constants) (syscall : Nat) (register : Register) (m : Machine) :
    StepResult :=
  let a := m.registers.a
  let b := m.registers.b
  let cv := m.registers.c
  if syscall = c.syscall.OPEN then .hostDependent
  else if syscall = c.syscall.READ_CODE then .panicked
  else if syscall = c.syscall.READ_MEMORY then .hostDependent
  else if syscall = c.syscall.WRITE then
    match syscall_write a b cv m with
    | some (m1, n) =>
      match writeReg m1.registers register n with
      | some R => .ok { m1 with registers := R }
      | none => .panicked
    | none => .panicked
  else if syscall = c.syscall.SLEEP then .panicked
  else if syscall = c.syscall.EXIT then .exited a
  else .panicked

/-- Lift the option-valued instruction handlers into a step result
(`none`, a Rust panic, becomes `panicked`). -/
def toResult : Option Machine → StepResult
  | some m => .ok m
  | none => .panicked

/-- `emulate_instruction`: dispatch to the per-opcode handler. -/
def emulate_instruction (c : Constants) : Instruction → Machine → StepResult
  | .IMM r v, m => toResult (emulate_imm r v m)
  | .ADD a b, m => toResult (emulate_add a b m)
  | .STK pop push, m => toResult (emulate_stk pop push m)
  | .STM a b, m => toResult (emulate_stm a b m)
  | .LDM a b, m => toResult (emulate_ldm a b m)
  | .CMP a b, m => toResult (emulate_cmp c.flag a b m)
  | .JMP cond r, m => toResult (emulate_jmp cond r m)
  | .SYS sc r, m => emulate_sys c sc r m

/-- The advance half of `step`: `I += 1` on the one-byte I register. -/
def advanceI (m : Machine) : Machine :=
  { m with registers := { m.registers with i := (m.registers.i + 1) % 256 } }

/-- `Emulator::step`: fetch `instructions[I]` (an out-of-range index is
a Rust panic), advance I, then emulate the fetched instruction. -/
def step (c : Constants) (prog : List Instruction) (m : Machine) : StepResult :=
  match prog[m.registers.i]? with
  | none => .panicked
  | some instr => emulate_instruction c instr (advanceI m)

/-- The WRITE arm of the legacy `emu.rs` draft: it sends
`stack[B - 1 .. B + C - 1]` — a window of the STACK, shifted down by
one — to stdout.  `b as usize - 1` underflows (a panic) when B = 0, and
the slice is out of range past index 255; both are modelled as `none`. -/
def emuWrite (stack : Nat → Nat) (b c : Nat) : Option (List Nat) :=
  if 1 ≤ b ∧ b + c ≤ 257 then
    some ((List.range c).map fun k => stack (b - 1 + k))
  else none

/-- A concrete, well-formed constants table used by the closed
evaluation theorems (flag bits 1,2,4,8,16; distinct syscall codes). -/
def sampleConstants : Constants :=
  { flag := { L := 1, G := 2, E := 4, N := 8, Z := 16 },
    syscall := { OPEN := 1, READ_CODE := 2, READ_MEMORY := 4, WRITE := 8,
                 SLEEP := 16, EXIT := 32 } }

/-- The zeroed register file the emulator starts from. -/
def initRegisters : Registers := ⟨0, 0, 0, 0, 0, 0, 0⟩

/-- The zeroed machine the emulator starts from. -/
def initMachine : Machine := ⟨initRegisters, fun _ => 0, fun _ => 0, []⟩

/-! ## Helper lemmas about the register file -/

lemma writeReg_isSome (R : Registers) (r : Register) (v : Nat) (h : r ≠ Register.None) :
    ∃ R2, writeReg R r v = some R2 := by
  cases r <;> first
    | exact absurd rfl h
    | exact ⟨_, rfl⟩

lemma readReg_writeReg_self (R R2 : Registers) (r : Register) (v : Nat)
    (h : writeReg R r v = some R2) : readReg R2 r = some v := by
  cases r <;> first
    | exact Option.noConfusion h
    | (injection h with h; subst h; rfl)

lemma readReg_writeReg_ne (R R2 : Registers) (r r2 : Register) (v : Nat)
    (h : writeReg R r v = some R2) (hne : r2 ≠ r) : readReg R2 r2 = readReg R r2 := by
  cases r <;> cases r2 <;> first
    | exact Option.noConfusion h
    | exact absurd rfl hne
    | (injection h with h; subst h; rfl)

lemma writeReg_s_of_ne (R R2 : Registers) (r : Register) (v : Nat)
    (h : writeReg R r v = some R2) (hr : r ≠ Register.S) : R2.s = R.s := by
  cases r <;> first
    | exact Option.noConfusion h
    | exact absurd rfl hr
    | (injection h with h; subst h; rfl)

lemma readReg_advanceI (m : Machine) (r : Register) (hr : r ≠ Register.I) :
    readReg (advanceI m).registers r = readReg m.registers r := by
  cases r <;> first
    | exact absurd rfl hr
    | rfl

/-! ## Bit-level helper lemmas -/

lemma testBit_pow (x j : Nat) : ((2 ^ x).testBit j = true) ↔ x = j := by
  simp [Nat.testBit_two_pow]

lemma testBit_pow_or_pow (x y j : Nat) :
    ((2 ^ x ||| 2 ^ y).testBit j = true) ↔ (x = j ∨ y = j) := by
  simp [Nat.testBit_or, Nat.testBit_two_pow]

/-! ## C1: CMP recomputes the flag byte from scratch -/

/-- C1: for every pair of register values a and b, executing CMP(a, b)
overwrites the F register with flags computed from scratch (no OR with
the previous F): the L and N bits are both set iff a < b, the G and N
bits are both set iff a > b, the E bit is set iff a = b, the Z bit is
additionally set iff a = 0 and b = 0, and no bit outside the five flag
bits is set.  Stated for any constants table binding the five flags to
pairwise-distinct single bits, the invariant the spec requires of a
well-formed `Constants`. -/
theorem cmp_flags (fc : FlagConstants) (m m2 : Machine) (ra rb : Register)
    (va vb l g e n z : Nat)
    (hva : readReg m.registers ra = some va)
    (hvb : readReg m.registers rb = some vb)
    (hL : fc.L = 2 ^ l) (hG : fc.G = 2 ^ g) (hE : fc.E = 2 ^ e)
    (hN : fc.N = 2 ^ n) (hZ : fc.Z = 2 ^ z)
    (hlg : l ≠ g) (hle : l ≠ e) (hln : l ≠ n) (hlz : l ≠ z)
    (hge : g ≠ e) (hgn : g ≠ n) (hgz : g ≠ z)
    (hen : e ≠ n) (hez : e ≠ z) (hnz : n ≠ z)
    (hrun : emulate_cmp fc ra rb m = some m2) :
    ((m2.registers.f.testBit l = true ∧ m2.registers.f.testBit n = true) ↔ va < vb)
    ∧ ((m2.registers.f.testBit g = true ∧ m2.registers.f.testBit n = true) ↔ vb < va)
    ∧ (m2.registers.f.testBit e = true ↔ va = vb)
    ∧ (m2.registers.f.testBit z = true ↔ (va = 0 ∧ vb = 0))
    ∧ (∀ j, m2.registers.f.testBit j = true → j = l ∨ j = g ∨ j = e ∨ j = n ∨ j = z) := by
  have key : emulate_cmp fc ra rb m = some { m with registers := { m.registers with f :=
      (if va = 0 ∧ vb = 0
        then (if va < vb then fc.L ||| fc.N else if vb < va then fc.G ||| fc.N else fc.E) ||| fc.Z
        else (if va < vb then fc.L ||| fc.N else if vb < va then fc.G ||| fc.N else fc.E)) } } := by
    unfold emulate_cmp
    simp only [hva, hvb, Option.some_bind, writeReg]
    rfl
  have hf : m2.registers.f =
      (if va = 0 ∧ vb = 0
        then (if va < vb then fc.L ||| fc.N else if vb < va then fc.G ||| fc.N else fc.E) ||| fc.Z
        else (if va < vb then fc.L ||| fc.N else if vb < va then fc.G ||| fc.N else fc.E)) := by
    rw [key] at hrun
    injection hrun with hrun
    exact (congrArg (fun mm => mm.registers.f) hrun).symm
  rcases Nat.lt_trichotomy va vb with hlt | heq | hgt
  · have hf2 : m2.registers.f = 2 ^ l ||| 2 ^ n := by
      rw [hf, if_neg (by omega), if_pos hlt, hL, hN]
    refine ⟨?_, ?_, ?_, ?_, ?_⟩ <;> simp only [hf2, testBit_pow_or_pow, testBit_pow, true_or, or_true, true_and,
        and_true, true_iff, iff_true] <;> omega
  · by_cases h0 : va = 0 ∧ vb = 0
    · have hf2 : m2.registers.f = 2 ^ e ||| 2 ^ z := by
        rw [hf, if_pos h0, if_neg (by omega), if_neg (by omega), hE, hZ]
      refine ⟨?_, ?_, ?_, ?_, ?_⟩ <;> simp only [hf2, testBit_pow_or_pow, testBit_pow, true_or, or_true, true_and,
        and_true, true_iff, iff_true] <;> omega
    · have hf2 : m2.registers.f = 2 ^ e := by
        rw [hf, if_neg h0, if_neg (by omega), if_neg (by omega), hE]
      refine ⟨?_, ?_, ?_, ?_, ?_⟩ <;> simp only [hf2, testBit_pow_or_pow, testBit_pow, true_or, or_true, true_and,
        and_true, true_iff, iff_true] <;> omega
  · have hf2 : m2.registers.f = 2 ^ g ||| 2 ^ n := by
      rw [hf, if_neg (by omega), if_neg (by omega), if_pos hgt, hG, hN]
    refine ⟨?_, ?_, ?_, ?_, ?_⟩ <;> simp only [hf2, testBit_pow_or_pow, testBit_pow, true_or, or_true, true_and,
        and_true, true_iff, iff_true] <;> omega

/-- A machine holding A = 1 and B = 2, about to be compared. -/
def mCmp : Machine := ⟨⟨1, 2, 0, 0, 0, 0, 0⟩, fun _ => 0, fun _ => 0, []⟩

/-- The machine `emulate_cmp` produces from `mCmp` with the sample
constants (F = L ||| N = 1 ||| 8). -/
def mCmpOut : Machine := ⟨⟨1, 2, 0, 0, 0, 0, 1 ||| 8⟩, fun _ => 0, fun _ => 0, []⟩

/-- Witness for C1 at the sample flag bits (L,G,E,N,Z = 1,2,4,8,16) with
A = 1 and B = 2: the L and N bits of the resulting F are both set iff
1 < 2. -/
theorem cmp_flags_witness :
    (mCmpOut.registers.f.testBit 0 = true ∧ mCmpOut.registers.f.testBit 3 = true) ↔ 1 < 2 :=
  (cmp_flags sampleConstants.flag mCmp mCmpOut Register.A Register.B 1 2 0 1 2 3 4
    rfl rfl rfl rfl rfl rfl rfl
    (by decide) (by decide) (by decide) (by decide) (by decide) (by decide) (by decide)
    (by decide) (by decide) (by decide) rfl).1

/-! ## C3: ADD stores the mod-256 sum -/

/-- C3: for every pair of register values a and b, executing ADD(a, b)
stores (a + b) mod 256 in register a — unsigned wraparound, no overflow
flag set (every register other than the destination, the F register
included, is left unchanged). -/
theorem add_mod256 (m m2 : Machine) (ra rb : Register) (va vb : Nat)
    (hva : readReg m.registers ra = some va)
    (hvb : readReg m.registers rb = some vb)
    (hrun : emulate_add ra rb m = some m2) :
    readReg m2.registers ra = some ((va + vb) % 256)
    ∧ ∀ r, r ≠ ra → readReg m2.registers r = readReg m.registers r := by
  unfold emulate_add at hrun
  rw [hva, hvb] at hrun
  simp only [Option.bind_eq_bind, Option.some_bind] at hrun
  obtain ⟨R2, hw⟩ := writeReg_isSome m.registers ra ((va + vb) % 256)
    (by intro h; subst h; simp [readReg] at hva)
  rw [hw] at hrun
  simp only [Option.some_bind] at hrun
  injection hrun with hrun
  subst hrun
  constructor
  · exact readReg_writeReg_self _ _ _ _ hw
  · intro r hr
    exact readReg_writeReg_ne _ _ _ _ _ hw hr

/-- A machine exercising the wrapping case 200 + 100. -/
def mAdd : Machine := ⟨⟨200, 100, 0, 0, 0, 0, 0⟩, fun _ => 0, fun _ => 0, []⟩

/-- The machine `emulate_add` produces from `mAdd`. -/
def mAddOut : Machine := ⟨⟨44, 100, 0, 0, 0, 0, 0⟩, fun _ => 0, fun _ => 0, []⟩

/-- Witness for C3 at the wrapping inputs 200 and 100: the result is
(200 + 100) mod 256 = 44. -/
theorem add_mod256_witness :
    readReg mAddOut.registers Register.A = some ((200 + 100) % 256) :=
  (add_mod256 mAdd mAddOut Register.A Register.B 200 100 rfl rfl rfl).1

/-! ## C2: STK pushes before popping -/

/-- A machine with A = 5 and stack pointer S = 3: popping into S makes
the "net stack-pointer unchanged" half of the push-then-pop claim
fail. -/
def mStkS : Machine := ⟨⟨5, 0, 0, 0, 3, 0, 0⟩, fun _ => 0, fun _ => 0, []⟩

/-- Counterexample to C2 as stated: executing STK(S, A) — both operands
non-None — on a machine with A = 5 and S = 3 pushes 5 and then pops it
into the stack-pointer register itself, so S ends at 5, not at its
original value 3: the stack pointer is not unchanged net. -/
theorem stk_pop_into_s_counterexample :
    (emulate_stk Register.S Register.A mStkS).map (fun mm => mm.registers.s) = some 5
    ∧ mStkS.registers.s = 3 ∧ (5 : Nat) ≠ 3 :=
  ⟨rfl, rfl, by decide⟩

/-- C2 amended: STK evaluates the push before the pop.  With both
operands non-None, pop_dst ends up holding push_src's value and —
provided pop_dst is not the stack-pointer register S itself — S is
unchanged net.  With only push_src non-None, S increments by exactly 1
(as the byte it is, wrapping at 256) and the pushed value is stored at
the slot S held before the increment.  With only pop_dst non-None and
pop_dst not S, S decrements by exactly 1 (wrapping at 256) and pop_dst
is loaded from the slot at the decremented S. -/
theorem stk_semantics (m m2 : Machine) (pop push : Register) (v : Nat)
    (hs : m.registers.s < 256)
    (hrun : emulate_stk pop push m = some m2) :
    (push ≠ Register.None → pop ≠ Register.None → readReg m.registers push = some v →
      readReg m2.registers pop = some v
      ∧ (pop ≠ Register.S → m2.registers.s = m.registers.s))
    ∧ (push ≠ Register.None → pop = Register.None → readReg m.registers push = some v →
      m2.registers.s = (m.registers.s + 1) % 256
      ∧ m2.stack m.registers.s = v
      ∧ ∀ k, k ≠ m.registers.s → m2.stack k = m.stack k)
    ∧ (push = Register.None → pop ≠ Register.None → pop ≠ Register.S →
      m2.registers.s = (m.registers.s + 255) % 256
      ∧ readReg m2.registers pop = some (m.stack ((m.registers.s + 255) % 256))) := by
  refine ⟨?_, ?_, ?_⟩
  · intro hpush hpop hv
    unfold emulate_stk at hrun
    rw [if_pos hpush, hv] at hrun
    simp only [Option.pure_def, Option.bind_eq_bind, Option.some_bind] at hrun
    rw [if_pos hpop] at hrun
    have he : ((m.registers.s + 1) % 256 + 255) % 256 = m.registers.s := by omega
    rw [he] at hrun
    rw [show setMem m.stack m.registers.s v m.registers.s = v from by
      simp [setMem]] at hrun
    obtain ⟨R2, hw⟩ := writeReg_isSome
      { m.registers with s := m.registers.s } pop v hpop
    rw [hw] at hrun
    simp only [Option.bind_eq_bind, Option.some_bind] at hrun
    injection hrun with hrun
    subst hrun
    refine ⟨readReg_writeReg_self _ _ _ _ hw, fun hps => ?_⟩
    exact writeReg_s_of_ne _ _ _ _ hw hps
  · intro hpush hpop hv
    subst hpop
    unfold emulate_stk at hrun
    rw [if_pos hpush, hv] at hrun
    simp only [Option.pure_def, Option.bind_eq_bind, Option.some_bind] at hrun
    rw [if_neg (show ¬(Register.None ≠ Register.None) from by simp)] at hrun
    injection hrun with hrun
    subst hrun
    refine ⟨rfl, by simp [setMem], fun k hk => by simp [setMem, hk]⟩
  · intro hpush hpop hps
    subst hpush
    unfold emulate_stk at hrun
    rw [if_neg (show ¬(Register.None ≠ Register.None) from by simp)] at hrun
    simp only [Option.pure_def, Option.bind_eq_bind, Option.some_bind] at hrun
    rw [if_pos hpop] at hrun
    obtain ⟨R2, hw⟩ := writeReg_isSome
      { m.registers with s := (m.registers.s + 255) % 256 } pop
      (m.stack ((m.registers.s + 255) % 256)) hpop
    rw [hw] at hrun
    simp only [Option.bind_eq_bind, Option.some_bind] at hrun
    injection hrun with hrun
    subst hrun
    refine ⟨?_, readReg_writeReg_self _ _ _ _ hw⟩
    rw [writeReg_s_of_ne _ _ _ _ hw hps]

/-- A machine with A = 42 and S = 3, about to move A to B via the
stack. -/
def mStk : Machine := ⟨⟨42, 0, 0, 0, 3, 0, 0⟩, fun _ => 0, fun _ => 0, []⟩

/-- The machine `emulate_stk B A` produces from `mStk`: 42 pushed at
slot 3, then popped into B, S back at 3. -/
def mStkOut : Machine :=
  ⟨⟨42, 42, 0, 0, 3, 0, 0⟩, setMem (fun _ => 0) 3 42, fun _ => 0, []⟩

/-- Witness for C2 (amended) in the push-then-pop case: STK(B, A) with
A = 42 and S = 3 leaves B holding 42. -/
theorem stk_semantics_witness :
    readReg mStkOut.registers Register.B = some 42 :=
  ((stk_semantics mStk mStkOut Register.B Register.A 42 (by decide) rfl).1
    (by decide) (by decide) rfl).1

/-! ## C4: JMP is conditional on F and the mask -/

/-- C4: for every flag-register value F and condition mask, executing
JMP(cond_mask, target_reg) — target_reg a real register other than I —
sets the I register to target_reg's value when F AND cond_mask is
nonzero, and otherwise leaves I at its already-advanced value, exactly
one past the JMP instruction's own index (modulo the byte wrap of I). -/
theorem jmp_step (c : Constants) (prog : List Instruction) (m m2 : Machine)
    (mask : Nat) (r : Register) (v : Nat)
    (hfetch : prog[m.registers.i]? = some (Instruction.JMP mask r))
    (hr : r ≠ Register.None) (hrI : r ≠ Register.I)
    (hv : readReg m.registers r = some v)
    (hrun : step c prog m = StepResult.ok m2) :
    (m.registers.f &&& mask ≠ 0 → m2.registers.i = v)
    ∧ (m.registers.f &&& mask = 0 → m2.registers.i = (m.registers.i + 1) % 256) := by
  have hstep : step c prog m = toResult (emulate_jmp mask r (advanceI m)) := by
    unfold step
    rw [hfetch]
    rfl
  rw [hstep] at hrun
  unfold emulate_jmp at hrun
  rw [show (advanceI m).registers.f = m.registers.f from rfl] at hrun
  constructor
  · intro hcond
    rw [if_pos hcond, readReg_advanceI m r hrI, hv] at hrun
    simp only [Option.pure_def, Option.bind_eq_bind, Option.some_bind] at hrun
    obtain ⟨R2, hw⟩ := writeReg_isSome (advanceI m).registers Register.I v (by decide)
    rw [hw] at hrun
    simp only [Option.some_bind] at hrun
    unfold toResult at hrun
    injection hrun with hrun
    subst hrun
    have := readReg_writeReg_self _ _ _ _ hw
    simp only [readReg] at this
    injection this
  · intro hcond
    rw [if_neg (show ¬(m.registers.f &&& mask ≠ 0) from by simp [hcond])] at hrun
    unfold toResult at hrun
    injection hrun with hrun
    subst hrun
    rfl

/-- A machine with A = 2 and F = 9 = L ||| N (sample flags), about to
execute JMP(L, A): the jump is taken. -/
def mJmp : Machine := ⟨⟨2, 0, 0, 0, 0, 0, 9⟩, fun _ => 0, fun _ => 0, []⟩

/-- The machine the taken jump produces from `mJmp`: I = 2. -/
def mJmpOut : Machine := ⟨⟨2, 0, 0, 0, 0, 2, 9⟩, fun _ => 0, fun _ => 0, []⟩

/-- A machine with A = 2 and F = 2 = G (sample flags), about to execute
JMP(L, A): the jump is not taken. -/
def mJmpN : Machine := ⟨⟨2, 0, 0, 0, 0, 0, 2⟩, fun _ => 0, fun _ => 0, []⟩

/-- The machine the untaken jump produces from `mJmpN`: I advanced to
1. -/
def mJmpNOut : Machine := ⟨⟨2, 0, 0, 0, 0, 1, 2⟩, fun _ => 0, fun _ => 0, []⟩

set_option maxRecDepth 100000 in
/-- Witness for C4: with F = L ||| N and mask L, the jump sets I to A's
value 2; with F = G and the same mask, I advances by exactly 1. -/
theorem jmp_step_witness :
    mJmpOut.registers.i = 2
    ∧ mJmpNOut.registers.i = (mJmpN.registers.i + 1) % 256 :=
  ⟨(jmp_step sampleConstants [Instruction.JMP 1 Register.A] mJmp mJmpOut 1 Register.A 2
      rfl (by decide) (by decide) rfl rfl).1 (by decide),
   (jmp_step sampleConstants [Instruction.JMP 1 Register.A] mJmpN mJmpNOut 1 Register.A 2
      rfl (by decide) (by decide) rfl rfl).2 (by decide)⟩

/-! ## C5: the EXIT syscall terminates the host process -/

/-- A machine holding the exit code 7 in A. -/
def mExit7 : Machine := ⟨⟨7, 0, 0, 0, 0, 0, 0⟩, fun _ => 0, fun _ => 0, []⟩

/-- C5, evaluated at the failing inputs: executing SYS(EXIT, _) reaches
`process::exit(A)` — the terminal `exited` outcome of the embedding,
which models the host process being torn down on the spot (`syscall_exit`
returns `!`), not a Halt value handed back by `step`.  The exit code is
A's value, and no return value is stored in any register (the dispatch
never reaches the return-value write). -/
theorem sys_exit_terminates_process :
    step sampleConstants [Instruction.SYS sampleConstants.syscall.EXIT Register.A] initMachine
      = StepResult.exited 0
    ∧ step sampleConstants [Instruction.SYS sampleConstants.syscall.EXIT Register.B] mExit7
      = StepResult.exited 7 :=
  ⟨rfl, rfl⟩

/-! ## C6: fetching past the end of the program -/

/-- A machine whose instruction pointer (1) is past the end of a
one-instruction program. -/
def mPC1 : Machine := ⟨⟨0, 0, 0, 0, 0, 1, 0⟩, fun _ => 0, fun _ => 0, []⟩

/-- C6, evaluated at the failing inputs: when I is at or past the
program length, the fetch `instructions[I]` is an out-of-range `Vec`
index — a Rust panic (the `panicked` outcome), not a typed
ProgramCounterOutOfRange error value surfaced from `step`. -/
theorem fetch_out_of_range_panics :
    step sampleConstants [] initMachine = StepResult.panicked
    ∧ step sampleConstants [Instruction.IMM Register.A 1] mPC1 = StepResult.panicked :=
  ⟨rfl, rfl⟩

/-! ## C7: the advance step wraps I at 256 -/

/-- C7: after fetching any instruction, the advance step sets
I := I + 1 with byte wraparound at 256; in particular, when the fetch
happened at index 255 the advanced I is 0 and the step proceeds to
dispatch rather than failing. -/
theorem advance_wraps (c : Constants) (prog : List Instruction) (m : Machine)
    (instr : Instruction)
    (hfetch : prog[m.registers.i]? = some instr) :
    step c prog m = emulate_instruction c instr (advanceI m)
    ∧ (advanceI m).registers.i = (m.registers.i + 1) % 256
    ∧ (m.registers.i = 255 → (advanceI m).registers.i = 0) := by
  refine ⟨?_, rfl, ?_⟩
  · unfold step
    rw [hfetch]
  · intro h255
    show (m.registers.i + 1) % 256 = 0
    omega

/-- A 256-instruction program, long enough to fetch at index 255. -/
def prog256 : List Instruction := List.replicate 256 (Instruction.IMM Register.A 0)

/-- A machine whose instruction pointer sits at index 255. -/
def mI255 : Machine := ⟨⟨0, 0, 0, 0, 0, 255, 0⟩, fun _ => 0, fun _ => 0, []⟩

set_option maxRecDepth 100000 in
/-- Witness for C7: fetching the instruction at index 255 of a
256-instruction program leaves the advanced I at 0. -/
theorem advance_wraps_witness : (advanceI mI255).registers.i = 0 :=
  (advance_wraps sampleConstants prog256 mI255 (Instruction.IMM Register.A 0) rfl).2.2 rfl

/-! ## C8: the stack pointer wraps silently at the ends -/

/-- A machine with the stack pointer at its maximum, 255, and A = 9. -/
def mS255 : Machine := ⟨⟨9, 0, 0, 0, 255, 0, 0⟩, fun _ => 0, fun _ => 0, []⟩

/-- A machine with the stack pointer at 0. -/
def mS0 : Machine := ⟨⟨0, 0, 0, 0, 0, 0, 0⟩, fun _ => 0, fun _ => 0, []⟩

/-- C8, evaluated at the failing inputs: a push with S = 255 succeeds
and silently wraps S to 0, and a pop with S = 0 succeeds and silently
wraps S to 255 — no StackOverflow or StackUnderflow condition is
raised (the source's own TODO admits the missing handling). -/
theorem stk_pointer_wraps_silently :
    (emulate_stk Register.None Register.A mS255).map (fun mm => mm.registers.s) = some 0
    ∧ (emulate_stk Register.B Register.None mS0).map (fun mm => mm.registers.s) = some 255 :=
  ⟨rfl, rfl⟩

/-! ## C9: the two drafts disagree on WRITE's data source -/

/-- A machine with B = 1, C = 1, stack[0] = 9 and memory[1] = 7: the
two WRITE drafts send different bytes from it. -/
def mWrite : Machine :=
  ⟨⟨0, 1, 1, 0, 0, 0, 0⟩, setMem (fun _ => 0) 0 9, setMem (fun _ => 0) 1 7, []⟩

/-- C9, evaluated at the failing input: with start = B = 1 and
size = C = 1, the `emulator.rs` WRITE (`syscall_write`) sends
memory[1..2] = [7] — main memory at addresses start..start+size-1, as
the claim states — while the legacy `emu.rs` draft sends
stack[B-1..B+C-1] = [9], a stack window shifted down by one, which
contradicts the claim. -/
theorem write_source_divergence :
    (syscall_write 0 1 1 mWrite).map (fun p => p.1.out) = some [7]
    ∧ emuWrite mWrite.stack 1 1 = some [9]
    ∧ ([9] : List Nat) ≠ ([7] : List Nat) :=
  ⟨rfl, rfl, by decide⟩

/-! ## C10: STK(None, None) only advances I -/

/-- C10: for every state, executing STK(None, None) performs neither a
push nor a pop: every register other than I (the stack pointer S
included), every stack cell and every memory cell is unchanged, and I
advances by exactly 1 (as the byte it is, wrapping at 256). -/
theorem stk_none_frame (c : Constants) (prog : List Instruction) (m m2 : Machine)
    (hfetch : prog[m.registers.i]? = some (Instruction.STK Register.None Register.None))
    (hrun : step c prog m = StepResult.ok m2) :
    m2.registers.i = (m.registers.i + 1) % 256
    ∧ (∀ r, r ≠ Register.I → readReg m2.registers r = readReg m.registers r)
    ∧ (∀ k, m2.stack k = m.stack k)
    ∧ (∀ k, m2.memory k = m.memory k) := by
  have hstep : step c prog m = StepResult.ok (advanceI m) := by
    unfold step
    rw [hfetch]
    rfl
  rw [hstep] at hrun
  injection hrun with hrun
  subst hrun
  exact ⟨rfl, fun r hr => readReg_advanceI m r hr, fun _ => rfl, fun _ => rfl⟩

/-- A machine with distinctive values in every component. -/
def mFrame : Machine := ⟨⟨1, 2, 3, 4, 5, 0, 6⟩, fun _ => 9, fun _ => 8, []⟩

/-- The machine STK(None, None) produces from `mFrame`: only I moved. -/
def mFrameOut : Machine := ⟨⟨1, 2, 3, 4, 5, 1, 6⟩, fun _ => 9, fun _ => 8, []⟩

/-- Witness for C10 on a machine with distinctive component values:
after STK(None, None), I has advanced by exactly 1. -/
theorem stk_none_frame_witness : mFrameOut.registers.i = (mFrame.registers.i + 1) % 256 :=
  (stk_none_frame sampleConstants [Instruction.STK Register.None Register.None]
    mFrame mFrameOut rfl rfl).1

end Gyan
